import Mathlib

/-!
Verification of the statistics engine and trade lifecycle of the `horsey`
trading-journal repository.

The JavaScript source is embedded shallowly:

* JavaScript numbers are modelled as rationals (`ℚ`); the single use of the
  floating-point value `Infinity` (the profit-factor sentinel) is modelled by
  the two-constructor type `ProfitFactor`.
* `Math.round(x * 100) / 100` (the 2-decimal output rounding used throughout
  `stats.js`) is modelled by `round2`; JavaScript `Math.round x` returns
  `⌊x + 1/2⌋` (ties go toward positive infinity).
* Each statistics operation receives the list of trade rows that the source
  fetches with its SQL query (closed, non-paper trades, ordered by
  `entry_time DESC`); the SQL layer itself is outside the engine and is not
  modelled.
* JavaScript arrays passed to the engine are modelled as lists.  Where an
  operation mutates its array argument in place (`Array.prototype.reverse`
  in `getStreaks`), the embedding makes the effect explicit by also returning
  the final contents of the array (`getStreaksRun`); the other operations
  only use the non-mutating methods `filter`, `reduce`, `map` and `forEach`.
-/

namespace Horsey

/-- JavaScript `Math.round`: nearest integer, ties toward positive infinity. -/
def jsRound (x : ℚ) : ℤ := (x + 1 / 2).floor

/-- `Math.round(x * 100) / 100`, the 2-decimal rounding applied to every
monetary output field in `stats.js`. -/
def round2 (x : ℚ) : ℚ := (jsRound (x * 100) : ℚ) / 100

/-- The profit factor is a JavaScript number that can be the sentinel
`Infinity` (src/stats.js line 72); every other field is finite. -/
inductive ProfitFactor where
  | fin (q : ℚ)
  | inf
  deriving DecidableEq

/-- `Math.round(pf * 100) / 100` applied to the profit factor: in JavaScript
`Math.round(Infinity) = Infinity`, so the sentinel survives the rounding. -/
def round2PF : ProfitFactor → ProfitFactor
  | .fin q => .fin (round2 q)
  | .inf => .inf

/-- Day of week of a trade's `entry_time`, as computed by
`new Date(trade.entry_time).toLocaleDateString` in `getDayOfWeekAnalysis`. -/
inductive Weekday where
  | monday | tuesday | wednesday | thursday | friday | saturday | sunday
  deriving DecidableEq

/-- The weekdays that are keys of the `dayStats` object (Monday–Friday). -/
def Weekday.isTradingDay : Weekday → Bool
  | .saturday => false
  | .sunday => false
  | _ => true

/-- A trade row as consumed by the statistics engine: the fields of the
`trades` table that `HorseyStats` reads.  `entry_weekday` models the weekday
name that the source derives from the stored `entry_time`. -/
structure Trade where
  id : ℕ
  ticker : String
  pnl : ℚ
  setup_type : Option String
  entry_weekday : Weekday
  deriving DecidableEq

/-! ## `HorseyStats.getStats` (src/stats.js lines 44–104)

The local constants of the source (`winners`, `losers`, `totalPnL`, …) are
hoisted into named definitions so that the theorems can speak about the
full-precision intermediate values. -/

/-- `trades.filter(t => t.pnl > 0)` -/
def winnersOf (l : List Trade) : List Trade := l.filter fun t => decide (0 < t.pnl)

/-- `trades.filter(t => t.pnl < 0)` -/
def losersOf (l : List Trade) : List Trade := l.filter fun t => decide (t.pnl < 0)

/-- `trades.filter(t => t.pnl === 0)` -/
def scratchesOf (l : List Trade) : List Trade := l.filter fun t => decide (t.pnl = 0)

/-- `trades.reduce((sum, t) => sum + t.pnl, 0)` -/
def pnlSum (l : List Trade) : ℚ := l.foldl (fun s t => s + t.pnl) 0

/-- `(winners.length / trades.length) * 100` -/
def winRateOf (l : List Trade) : ℚ :=
  ((winnersOf l).length : ℚ) / (l.length : ℚ) * 100

/-- `winners.reduce((sum, t) => sum + t.pnl, 0)` -/
def totalWinningsOf (l : List Trade) : ℚ := pnlSum (winnersOf l)

/-- `Math.abs(losers.reduce((sum, t) => sum + t.pnl, 0))` -/
def totalLossesOf (l : List Trade) : ℚ := |pnlSum (losersOf l)|

/-- `winners.length > 0 ? totalWinnings / winners.length : 0` -/
def avgWinnerOf (l : List Trade) : ℚ :=
  if 0 < (winnersOf l).length then totalWinningsOf l / ((winnersOf l).length : ℚ) else 0

/-- `losers.length > 0 ? totalLosses / losers.length : 0` -/
def avgLoserOf (l : List Trade) : ℚ :=
  if 0 < (losersOf l).length then totalLossesOf l / ((losersOf l).length : ℚ) else 0

/-- `totalLosses > 0 ? totalWinnings / totalLosses : totalWinnings > 0 ? Infinity : 0` -/
def profitFactorOf (l : List Trade) : ProfitFactor :=
  if 0 < totalLossesOf l then .fin (totalWinningsOf l / totalLossesOf l)
  else if 0 < totalWinningsOf l then .inf
  else .fin 0

/-- `trades.reduce((best, current) => !best || current.pnl > best.pnl ? current : best, null)` -/
def bestTradeOf (l : List Trade) : Option Trade :=
  l.foldl
    (fun best current =>
      match best with
      | none => some current
      | some b => if current.pnl > b.pnl then some current else some b)
    none

/-- `trades.reduce((worst, current) => !worst || current.pnl < worst.pnl ? current : worst, null)` -/
def worstTradeOf (l : List Trade) : Option Trade :=
  l.foldl
    (fun worst current =>
      match worst with
      | none => some current
      | some w => if current.pnl < w.pnl then some current else some w)
    none

/-- The `{id, ticker, pnl, setup}` projection built for `bestTrade` and
`worstTrade` in the returned object. -/
structure TradeRef where
  id : ℕ
  ticker : String
  pnl : ℚ
  setup : Option String
  deriving DecidableEq

/-- `{id: t.id, ticker: t.ticker, pnl: t.pnl, setup: t.setup_type}` -/
def mkTradeRef (t : Trade) : TradeRef := ⟨t.id, t.ticker, t.pnl, t.setup_type⟩

/-- The summary object returned by `getStats`.  The nested `setupAnalysis`
and `dayOfWeekAnalysis` results are modelled by the stand-alone functions
`getSetupAnalysis` and `getDayOfWeekAnalysis`, which the source calls on the
same trade list.  On the empty input the source's early return omits the
`winners`/`losers`/`scratches` keys; reading an absent key of that object
can only yield the counts of the empty list, so the model sets them to 0. -/
structure Summary where
  totalTrades : ℕ
  winners : ℕ
  losers : ℕ
  scratches : ℕ
  winRate : ℚ
  avgWinner : ℚ
  avgLoser : ℚ
  profitFactor : ProfitFactor
  totalPnL : ℚ
  bestTrade : Option TradeRef
  worstTrade : Option TradeRef
  deriving DecidableEq

/-- The all-zero summary returned for an empty trade list (lines 44–57). -/
def emptySummary : Summary :=
  { totalTrades := 0, winners := 0, losers := 0, scratches := 0
    winRate := 0, avgWinner := 0, avgLoser := 0
    profitFactor := .fin 0, totalPnL := 0
    bestTrade := none, worstTrade := none }

/-- `HorseyStats.getStats` on the fetched trade list (lines 44–104). -/
def getStats : List Trade → Summary
  | [] => emptySummary
  | l@(_ :: _) =>
    { totalTrades := l.length
      winners := (winnersOf l).length
      losers := (losersOf l).length
      scratches := (scratchesOf l).length
      winRate := round2 (winRateOf l)
      avgWinner := round2 (avgWinnerOf l)
      avgLoser := round2 (avgLoserOf l)
      profitFactor := round2PF (profitFactorOf l)
      totalPnL := round2 (pnlSum l)
      bestTrade := (bestTradeOf l).map mkTradeRef
      worstTrade := (worstTradeOf l).map mkTradeRef }

/-! ## `HorseyStats.getSetupAnalysis` (src/stats.js lines 108–146)

The JavaScript object `setupStats` is keyed by setup tag and preserves
insertion order; it is modelled as an association list. -/

/-- One value of the `setupStats` object.  The source initialises every key
with all six fields at 0, accumulates `totalTrades`/`totalPnL`/`winners`/
`losers` in a `forEach`, and then overwrites `winRate`, `avgPnL` and
`totalPnL` in the finalisation pass. -/
structure SetupStat where
  totalTrades : ℕ
  winners : ℕ
  losers : ℕ
  totalPnL : ℚ
  winRate : ℚ
  avgPnL : ℚ
  deriving DecidableEq

/-- `const setup = trade.setup_type || 'other'` — both a missing value and
the empty string are falsy in JavaScript. -/
def setupKey (t : Trade) : String :=
  match t.setup_type with
  | some s => if s = "" then "other" else s
  | none => "other"

/-- All six fields of a fresh `setupStats[setup]` entry are 0. -/
def zeroSetup : SetupStat := ⟨0, 0, 0, 0, 0, 0⟩

/-- The body of the accumulation `forEach` for one trade (lines 130–134). -/
def bumpSetup (s : SetupStat) (t : Trade) : SetupStat :=
  { s with
    totalTrades := s.totalTrades + 1
    totalPnL := s.totalPnL + t.pnl
    winners := s.winners + (if 0 < t.pnl then 1 else 0)
    losers := s.losers + (if t.pnl < 0 then 1 else 0) }

/-- Keyed update of the `setupStats` object: an existing key is updated in
place, a new key is appended (JavaScript object keys keep insertion order). -/
def tallySetup (t : Trade) : List (String × SetupStat) → List (String × SetupStat)
  | [] => [(setupKey t, bumpSetup zeroSetup t)]
  | (k, s) :: rest =>
    if k = setupKey t then (k, bumpSetup s t) :: rest else (k, s) :: tallySetup t rest

/-- `setupStats[k]` — lookup in the modelled object. -/
def findSetup (m : List (String × SetupStat)) (k : String) : Option SetupStat :=
  match m with
  | [] => none
  | (k', s) :: rest => if k' = k then some s else findSetup rest k

/-- The finalisation pass (lines 138–143): `winRate` and `avgPnL` are
computed from the still-unrounded `totalPnL`, and only then is `totalPnL`
itself rounded.  `Math.round((w / n) * 10000) / 100` equals
`round2 (100 * w / n)`. -/
def finalizeSetup (s : SetupStat) : SetupStat :=
  { s with
    winRate := round2 ((s.winners : ℚ) / (s.totalTrades : ℚ) * 100)
    avgPnL := round2 (s.totalPnL / (s.totalTrades : ℚ))
    totalPnL := round2 s.totalPnL }

/-- `HorseyStats.getSetupAnalysis` on a fetched trade list. -/
def getSetupAnalysis (l : List Trade) : List (String × SetupStat) :=
  (l.foldl (fun m t => tallySetup t m) []).map fun p => (p.1, finalizeSetup p.2)

/-! ## `HorseyStats.getDayOfWeekAnalysis` (src/stats.js lines 149–185) -/

/-- The three accumulated fields of one `dayStats` bucket. -/
structure RawDay where
  totalTrades : ℕ
  totalPnL : ℚ
  winners : ℕ
  deriving DecidableEq

/-- A finalised `dayStats` bucket (`winRate` and `avgPnL` added). -/
structure DayCell where
  totalTrades : ℕ
  totalPnL : ℚ
  winners : ℕ
  winRate : ℚ
  avgPnL : ℚ
  deriving DecidableEq

/-- The `dayStats` object before finalisation: exactly five keys. -/
structure RawWeek where
  monday : RawDay
  tuesday : RawDay
  wednesday : RawDay
  thursday : RawDay
  friday : RawDay
  deriving DecidableEq

/-- The finalised `dayStats` object returned by `getDayOfWeekAnalysis`. -/
structure WeekStats where
  monday : DayCell
  tuesday : DayCell
  wednesday : DayCell
  thursday : DayCell
  friday : DayCell
  deriving DecidableEq

/-- A zero-initialised bucket (`{ totalTrades: 0, totalPnL: 0, winners: 0 }`). -/
def zeroDay : RawDay := ⟨0, 0, 0⟩

/-- The body of the tally `forEach` for a trade that hit a bucket. -/
def bumpDay (c : RawDay) (t : Trade) : RawDay :=
  { totalTrades := c.totalTrades + 1
    totalPnL := c.totalPnL + t.pnl
    winners := c.winners + (if 0 < t.pnl then 1 else 0) }

/-- One step of the tally `forEach` (lines 163–172): `dayStats[dayName]` is
undefined for Saturday and Sunday, so the `if (dayStats[dayName])` guard
silently skips weekend-dated trades. -/
def tallyDay (s : RawWeek) (t : Trade) : RawWeek :=
  match t.entry_weekday with
  | .monday => { s with monday := bumpDay s.monday t }
  | .tuesday => { s with tuesday := bumpDay s.tuesday t }
  | .wednesday => { s with wednesday := bumpDay s.wednesday t }
  | .thursday => { s with thursday := bumpDay s.thursday t }
  | .friday => { s with friday := bumpDay s.friday t }
  | .saturday => s
  | .sunday => s

/-- The finalisation pass (lines 175–182): guarded `winRate` and `avgPnL`,
then the rounded `totalPnL`. -/
def finalizeDay (c : RawDay) : DayCell :=
  { totalTrades := c.totalTrades
    totalPnL := round2 c.totalPnL
    winners := c.winners
    winRate :=
      if 0 < c.totalTrades then round2 ((c.winners : ℚ) / (c.totalTrades : ℚ) * 100) else 0
    avgPnL :=
      if 0 < c.totalTrades then round2 (c.totalPnL / (c.totalTrades : ℚ)) else 0 }

/-- `HorseyStats.getDayOfWeekAnalysis` on a fetched trade list. -/
def getDayOfWeekAnalysis (l : List Trade) : WeekStats :=
  let r := l.foldl tallyDay ⟨zeroDay, zeroDay, zeroDay, zeroDay, zeroDay⟩
  ⟨finalizeDay r.monday, finalizeDay r.tuesday, finalizeDay r.wednesday,
    finalizeDay r.thursday, finalizeDay r.friday⟩

/-! ## `HorseyStats.getStreaks` (src/stats.js lines 188–256)

The SQL query feeds the function the `pnl` column of the closed non-paper
trades ordered by `entry_time DESC` (most recent first); the input of the
model is that list of pnl values.  `trades.reverse()` on line 235 is
`Array.prototype.reverse`, which reverses the array in place; the effect on
the array is captured by `getStreaksRun`. -/

/-- The streak classification of a trade (`'none'` only for zero trades). -/
inductive StreakType where
  | none | win | loss | scratch
  deriving DecidableEq

/-- The `currentStreak` result object. -/
structure CurrentStreak where
  type : StreakType
  count : ℕ
  deriving DecidableEq

/-- The object returned by `getStreaks`. -/
structure Streaks where
  currentStreak : CurrentStreak
  bestWinStreak : ℕ
  worstLossStreak : ℕ
  deriving DecidableEq

/-- Classification of one pnl value: `isWin`/`isLoss` on lines 211–212. -/
def classOf (q : ℚ) : StreakType :=
  if 0 < q then .win else if q < 0 then .loss else .scratch

/-- The `i > 0` iterations of the current-streak loop (lines 219–225):
count while the class matches `streakType`, stop at the first mismatch. -/
def currentStreakLoop (ty : StreakType) (count : ℕ) : List ℚ → ℕ
  | [] => count
  | q :: rest => if classOf q = ty then currentStreakLoop ty (count + 1) rest else count

/-- The four mutable variables of the best/worst scan (lines 229–232). -/
structure StreakAcc where
  curWin : ℕ
  bestWin : ℕ
  curLoss : ℕ
  worstLoss : ℕ
  deriving DecidableEq

/-- The body of the chronological `forEach` (lines 235–249): a win bumps the
win counter and resets the loss counter, a loss does the opposite, and a
scratch resets both. -/
def streakStep (a : StreakAcc) (q : ℚ) : StreakAcc :=
  if 0 < q then
    { curWin := a.curWin + 1, bestWin := max a.bestWin (a.curWin + 1)
      curLoss := 0, worstLoss := a.worstLoss }
  else if q < 0 then
    { curWin := 0, bestWin := a.bestWin
      curLoss := a.curLoss + 1, worstLoss := max a.worstLoss (a.curLoss + 1) }
  else
    { curWin := 0, bestWin := a.bestWin, curLoss := 0, worstLoss := a.worstLoss }

/-- `HorseyStats.getStreaks` on the fetched pnl list (most recent first). -/
def getStreaks : List ℚ → Streaks
  | [] => ⟨⟨.none, 0⟩, 0, 0⟩
  | l@(q :: rest) =>
    let current : CurrentStreak := ⟨classOf q, currentStreakLoop (classOf q) 1 rest⟩
    let acc := (l.reverse).foldl streakStep ⟨0, 0, 0, 0⟩
    ⟨current, acc.bestWin, acc.worstLoss⟩

/-- `getStreaks` together with the final contents of its array argument:
`trades.reverse()` reverses the array in place (the empty input returns
before the reverse is reached). -/
def getStreaksRun (l : List ℚ) : Streaks × List ℚ :=
  match l with
  | [] => (getStreaks [], [])
  | _ :: _ => (getStreaks l, l.reverse)

/-! ## The pure engine operations as array transformers

`getStats`, `getSetupAnalysis` and `getDayOfWeekAnalysis` traverse their
array with `filter`, `reduce`, `map` and `forEach` only; none of these
mutates the array, so the final array contents equal the input. -/

/-- `getStats` with the final contents of its array argument. -/
def getStatsRun (l : List Trade) : Summary × List Trade := (getStats l, l)

/-- `getSetupAnalysis` with the final contents of its array argument. -/
def getSetupAnalysisRun (l : List Trade) : List (String × SetupStat) × List Trade :=
  (getSetupAnalysis l, l)

/-- `getDayOfWeekAnalysis` with the final contents of its array argument. -/
def getDayOfWeekAnalysisRun (l : List Trade) : WeekStats × List Trade :=
  (getDayOfWeekAnalysis l, l)

/-! ## Rendering of the profit factor

Two renderers consume the summary.  The plain-text `formatStats`
(src/stats.js line 283) interpolates the raw number into the template
string, and JavaScript stringifies the value `Infinity` as `"Infinity"`.
The HTML dashboard (`generatePerformance`, src/unnamed/part_000 line 473)
special-cases the sentinel: `stats.profitFactor === Infinity ? '∞' :
stats.profitFactor.toFixed(2)`. -/

/-- Decimal digits of `n` (helper for the JavaScript string coercions). -/
def natDigits (n : ℕ) : String := toString n

/-- JavaScript string coercion of a profit-factor value, for the values that
can reach the formatter: the sentinel prints as `"Infinity"`, and a finite
value — always a 2-decimal rounding result here — prints as a minimal
decimal numeral (no trailing zeros). -/
def jsNumString : ProfitFactor → String
  | .inf => "Infinity"
  | .fin q =>
    let cents : ℤ := jsRound (q * 100)
    let sign := if cents < 0 then "-" else ""
    let n := cents.natAbs
    let whole := n / 100
    let frac := n % 100
    if frac = 0 then sign ++ natDigits whole
    else if frac % 10 = 0 then sign ++ natDigits whole ++ "." ++ natDigits (frac / 10)
    else if frac < 10 then sign ++ natDigits whole ++ ".0" ++ natDigits frac
    else sign ++ natDigits whole ++ "." ++ natDigits frac

/-- The `Profit Factor:` line of `formatStats` (line 283). -/
def formatStatsProfitFactorLine (s : Summary) : String :=
  "Profit Factor: " ++ jsNumString s.profitFactor

/-- `Number.prototype.toFixed(2)` for the 2-decimal values produced by
`round2`: always exactly two digits after the point. -/
def toFixed2 (q : ℚ) : String :=
  let cents : ℤ := jsRound (q * 100)
  let sign := if cents < 0 then "-" else ""
  let n := cents.natAbs
  let whole := n / 100
  let frac := n % 100
  sign ++ natDigits whole ++ "." ++ (if frac < 10 then "0" else "") ++ natDigits frac

/-- The profit-factor cell of the HTML dashboard (`generatePerformance`):
the sentinel renders as the symbol `∞`, a finite value via `toFixed(2)`. -/
def dashboardProfitFactorString (s : Summary) : String :=
  match s.profitFactor with
  | .inf => "∞"
  | .fin q => toFixed2 q

/-! ## Trade lifecycle: `HorseyDB.openTrade` / `closeTrade` / `updateTradeNotes`
(src/stats.js second file, lines 614–678 and 711–714)

A row of the `trades` table is modelled with the columns these operations
read or write.  The schema also admits the status value `'partial'` in its
CHECK constraint, but no operation ever produces it, so the model carries
the two statuses the code creates. -/

/-- The `instrument` column (CHECK constraint of the `trades` table). -/
inductive Instrument where
  | shares | calls | puts | zeroDteCalls | zeroDtePuts | csp
  deriving DecidableEq

/-- `['shares'].includes(instrument) ? 1 : 100` — options contracts are 100
shares per contract. -/
def multiplier : Instrument → ℚ
  | .shares => 1
  | _ => 100

/-- `const COMMISSION = 1.00` — the fixed round-trip fee added at entry. -/
def COMMISSION : ℚ := 1

/-- Trade status as produced by the operations. -/
inductive TStatus where
  | opened | closed
  deriving DecidableEq

/-- A row of the `trades` table (the columns touched by the lifecycle
operations). -/
structure TradeRow where
  ticker : String
  instrument : Instrument
  entry_price : ℚ
  size : ℕ
  cost_basis : ℚ
  planned_risk : Option ℚ
  exit_price : Option ℚ
  proceeds : Option ℚ
  pnl : Option ℚ
  pnl_pct : Option ℚ
  actual_rr : Option ℚ
  status : TStatus
  notes : Option String
  lessons : Option String
  deriving DecidableEq

/-- `HorseyDB.openTrade` (lines 614–644): the inserted row. -/
def openTrade (ticker : String) (instrument : Instrument) (entryPrice : ℚ) (size : ℕ)
    (risk : Option ℚ) (notes : Option String) : TradeRow :=
  { ticker := ticker.toUpper
    instrument := instrument
    entry_price := entryPrice
    size := size
    cost_basis := entryPrice * (size : ℚ) * multiplier instrument + COMMISSION
    planned_risk := risk
    exit_price := none
    proceeds := none
    pnl := none
    pnl_pct := none
    actual_rr := none
    status := .opened
    notes := notes
    lessons := none }

/-- `HorseyDB.closeTrade` (lines 646–678) applied to an existing row: the
UPDATE is unconditional — the row's current status is never examined.
`if (trade.planned_risk)` is a JavaScript truthiness test, so a planned
risk of 0 leaves `actual_rr` null. -/
def closeTrade (t : TradeRow) (exitPrice : ℚ) (optNotes optLessons : Option String) :
    TradeRow :=
  let proceeds := exitPrice * (t.size : ℚ) * multiplier t.instrument
  let pnl := proceeds - t.cost_basis
  let pnlPct := pnl / t.cost_basis * 100
  let actualRR : Option ℚ :=
    match t.planned_risk with
    | some r => if r = 0 then none else some (pnl / r)
    | none => none
  { t with
    exit_price := some exitPrice
    proceeds := some proceeds
    pnl := some pnl
    pnl_pct := some pnlPct
    actual_rr := actualRR
    status := .closed
    notes := match optNotes with | some n => some n | none => t.notes
    lessons := optLessons }

/-- `HorseyDB.updateTradeNotes` (lines 711–714): sets exactly the `notes`
and `lessons` columns. -/
def updateTradeNotes (t : TradeRow) (notes lessons : Option String) : TradeRow :=
  { t with notes := notes, lessons := lessons }

/-! ## Specification-side definitions

These follow the wording of the specification and are compared with the
definitions embedded from the source. -/

/-- The specification's description of `currentStreak`: classify the most
recent trade, then count consecutive trades of that same class, stopping at
the first trade of a different class; `⟨none, 0⟩` for zero trades. -/
def currentStreakSpec (l : List ℚ) : CurrentStreak :=
  match l with
  | [] => ⟨.none, 0⟩
  | q :: rest =>
    ⟨classOf q, 1 + (rest.takeWhile fun p => decide (classOf p = classOf q)).length⟩

/-- `t.pnl > 0` as a Boolean classifier. -/
def isWinB (q : ℚ) : Bool := decide (0 < q)

/-- `t.pnl < 0` as a Boolean classifier. -/
def isLossB (q : ℚ) : Bool := decide (q < 0)

/-- The specification's description of the best/worst streak scan: run a
single consecutive counter over the list, incrementing on a `p`-element and
resetting to zero on anything else, and return the maximum value the counter
reaches. -/
def runAux (p : ℚ → Bool) : ℕ → List ℚ → ℕ
  | _, [] => 0
  | c, q :: rest =>
    max (if p q then c + 1 else 0) (runAux p (if p q then c + 1 else 0) rest)

/-- The consecutive counter itself (the value it holds after the scan). -/
def cntAux (p : ℚ → Bool) (c : ℕ) (l : List ℚ) : ℕ :=
  l.foldl (fun c q => if p q then c + 1 else 0) c

/-- The specification's description of a weekday bucket: every statistic is
computed from exactly the trades that fell into the bucket. -/
def dayCellSpec (g : List Trade) : DayCell :=
  { totalTrades := g.length
    totalPnL := round2 ((g.map Trade.pnl).sum)
    winners := g.countP fun t => decide (0 < t.pnl)
    winRate :=
      if 0 < g.length
      then round2 (((g.countP fun t => decide (0 < t.pnl)) : ℚ) / (g.length : ℚ) * 100)
      else 0
    avgPnL :=
      if 0 < g.length then round2 ((g.map Trade.pnl).sum / (g.length : ℚ)) else 0 }

/-- The rounding mode named by the specification: 2 decimal places with
ties away from zero, so `-10.125` would round to `-10.13`. -/
def roundHalfAwayFromZero2 (x : ℚ) : ℚ :=
  (if x < 0 then -((⌊-x * 100 + 1 / 2⌋ : ℤ) : ℚ) else ((⌊x * 100 + 1 / 2⌋ : ℤ) : ℚ)) / 100

/-! ## Concrete inputs used by the worked examples of the specification -/

/-- Five closed trades with pnl values 10, −5, 20, −5, 0. -/
def exFive : List Trade :=
  [⟨1, "AAPL", 10, some "breakout", .monday⟩,
   ⟨2, "TSLA", -5, some "fade", .tuesday⟩,
   ⟨3, "SPY", 20, none, .wednesday⟩,
   ⟨4, "QQQ", -5, some "momentum", .thursday⟩,
   ⟨5, "NVDA", 0, some "breakout", .friday⟩]

/-- A trade set with winnings and no losses. -/
def exAllWin : List Trade := [⟨1, "AAPL", 5, some "breakout", .monday⟩]

/-- A single trade whose pnl −81/8 = −10.125 sits exactly on a rounding tie. -/
def exNegTie : List Trade := [⟨1, "AAPL", -(81 / 8), some "fade", .monday⟩]

/-- The most-recent-first pnl sequence 5, 3, −2, 4 of the specification's
current-streak example. -/
def exMostRecentFirst : List ℚ := [5, 3, -2, 4]

/-- A freshly opened 1-share trade at entry price 10. -/
def exOpenRow : TradeRow := openTrade "aapl" .shares 10 1 none none

/-! ## Helper lemmas -/

/-- `Rat.floor` agrees with the floor of the archimedean order on `ℚ`. -/
theorem ratFloor_eq_intFloor (q : ℚ) : q.floor = ⌊q⌋ := by
  rw [Rat.floor_def, Rat.floor_def']

/-- `jsRound` rounds to the nearest integer with ties toward `+∞`. -/
theorem jsRound_eq_floor (x : ℚ) : jsRound x = ⌊x + 1 / 2⌋ :=
  ratFloor_eq_intFloor _

theorem foldl_add_pnl (l : List Trade) (c : ℚ) :
    l.foldl (fun s t => s + t.pnl) c = c + (l.map Trade.pnl).sum := by
  induction l generalizing c with
  | nil => simp
  | cons t rest ih => simp [List.foldl_cons, ih, add_assoc]

theorem filter_pnl_comm (p : ℚ → Bool) (l : List Trade) :
    (l.filter fun t => p t.pnl).map Trade.pnl = (l.map Trade.pnl).filter p := by
  induction l with
  | nil => rfl
  | cons t rest ih =>
    by_cases h : p t.pnl <;> simp [List.filter_cons, h, ih]

theorem currentStreakLoop_eq (ty : StreakType) (rest : List ℚ) (n : ℕ) :
    currentStreakLoop ty n rest
      = n + (rest.takeWhile fun p => decide (classOf p = ty)).length := by
  induction rest generalizing n with
  | nil => simp [currentStreakLoop]
  | cons q r ih =>
    by_cases h : classOf q = ty
    · simp [currentStreakLoop, h, List.takeWhile_cons, ih]
      omega
    · simp [currentStreakLoop, h, List.takeWhile_cons]

theorem findSetup_tally (t : Trade) (m : List (String × SetupStat)) (k : String) :
    findSetup (tallySetup t m) k
      = if setupKey t = k then some (bumpSetup ((findSetup m k).getD zeroSetup) t)
        else findSetup m k := by
  induction m with
  | nil => simp [tallySetup, findSetup]
  | cons p rest ih =>
    obtain ⟨a, s⟩ := p
    by_cases h1 : a = setupKey t
    · by_cases h2 : a = k
      · have hk : setupKey t = k := h1.symm.trans h2
        simp [tallySetup, findSetup, h1, h2, hk]
      · have hk : ¬setupKey t = k := fun he => h2 (h1.trans he)
        simp [tallySetup, findSetup, h1, h2, hk]
    · by_cases h2 : a = k
      · have hk : ¬setupKey t = k := fun he => h1 (h2.trans he.symm)
        have h1k : ¬k = setupKey t := fun he => h1 (h2.trans he)
        simp [tallySetup, findSetup, h1, h2, hk, h1k]
      · simp [tallySetup, findSetup, h1, h2, ih]

theorem findSetup_fold (l : List Trade) :
    ∀ (m : List (String × SetupStat)) (k : String),
    findSetup (l.foldl (fun acc t => tallySetup t acc) m) k
      = if findSetup m k = none ∧ l.filter (fun t => decide (setupKey t = k)) = []
        then none
        else some ((l.filter fun t => decide (setupKey t = k)).foldl bumpSetup
            ((findSetup m k).getD zeroSetup)) := by
  induction l with
  | nil =>
    intro m k
    cases hm : findSetup m k <;> simp [hm]
  | cons t l ih =>
    intro m k
    rw [List.foldl_cons, ih]
    by_cases h : setupKey t = k
    · rw [findSetup_tally]
      simp [h, List.filter_cons]
    · rw [findSetup_tally]
      simp [h, List.filter_cons]

theorem foldl_bumpSetup (g : List Trade) :
    ∀ s : SetupStat,
    g.foldl bumpSetup s
      = ⟨s.totalTrades + g.length,
         s.winners + g.countP (fun t => decide (0 < t.pnl)),
         s.losers + g.countP (fun t => decide (t.pnl < 0)),
         s.totalPnL + (g.map Trade.pnl).sum,
         s.winRate, s.avgPnL⟩ := by
  induction g with
  | nil => intro s; simp
  | cons t g ih =>
    intro s
    rw [List.foldl_cons, ih]
    simp only [bumpSetup, List.countP_cons, List.map_cons, List.sum_cons,
      SetupStat.mk.injEq, List.length_cons, decide_eq_true_eq, and_true]
    refine ⟨by omega, by omega, by omega, by ring⟩

theorem findSetup_map (m : List (String × SetupStat)) (k : String) :
    findSetup (m.map fun p => (p.1, finalizeSetup p.2)) k
      = (findSetup m k).map finalizeSetup := by
  induction m with
  | nil => rfl
  | cons p rest ih =>
    by_cases h : p.1 = k <;> simp [findSetup, h, ih]

theorem runAux_mono (p : ℚ → Bool) (l : List ℚ) :
    ∀ c d : ℕ, c ≤ d → runAux p c l ≤ runAux p d l := by
  induction l with
  | nil => intro c d _; exact le_refl _
  | cons q rest ih =>
    intro c d hcd
    by_cases h : p q
    · simp only [runAux, h, if_true]
      exact max_le_max (by omega) (ih _ _ (by omega))
    · simp only [runAux, h, if_false]
      exact max_le_max (le_refl 0) (ih _ _ (le_refl 0))

theorem runAux_le_append (p : ℚ → Bool) (s : List ℚ) :
    ∀ (l : List ℚ) (c : ℕ), runAux p 0 l ≤ runAux p c (s ++ l) := by
  induction s with
  | nil => intro l c; exact runAux_mono p l 0 c (Nat.zero_le c)
  | cons q s ih =>
    intro l c
    calc runAux p 0 l ≤ runAux p (if p q then c + 1 else 0) (s ++ l) := ih l _
    _ ≤ max (if p q then c + 1 else 0) (runAux p (if p q then c + 1 else 0) (s ++ l)) :=
        le_max_right _ _
    _ = runAux p c ((q :: s) ++ l) := rfl

theorem runAux_all_le (p : ℚ → Bool) (t : List ℚ) :
    ∀ (u : List ℚ) (c : ℕ), (∀ x ∈ t, p x = true) → t ≠ [] →
    c + t.length ≤ runAux p c (t ++ u) := by
  induction t with
  | nil => intro u c _ hne; exact absurd rfl hne
  | cons q t ih =>
    intro u c hall _
    have hq : p q = true := hall q (List.mem_cons_self q t)
    by_cases ht : t = []
    · subst ht
      simp only [runAux, List.cons_append, List.nil_append, hq, if_true, List.length_cons,
        List.length_nil]
      omega
    · have := ih u (c + 1) (fun x hx => hall x (List.mem_cons_of_mem q hx)) ht
      simp only [runAux, List.cons_append, hq, if_true, List.length_cons]
      calc c + (t.length + 1) = (c + 1) + t.length := by omega
      _ ≤ runAux p (c + 1) (t ++ u) := this
      _ ≤ max (c + 1) (runAux p (c + 1) (t ++ u)) := le_max_right _ _

theorem runAux_infix_le (p : ℚ → Bool) (s t u : List ℚ)
    (hall : ∀ x ∈ t, p x = true) :
    t.length ≤ runAux p 0 (s ++ t ++ u) := by
  by_cases ht : t = []
  · subst ht; simp
  · calc t.length = 0 + t.length := (Nat.zero_add _).symm
    _ ≤ runAux p 0 (t ++ u) := runAux_all_le p t u 0 hall ht
    _ ≤ runAux p 0 (s ++ (t ++ u)) := runAux_le_append p s (t ++ u) 0
    _ = runAux p 0 (s ++ t ++ u) := by rw [List.append_assoc]

theorem runAux_attained (p : ℚ → Bool) (l : List ℚ) :
    ∀ c : ℕ,
    runAux p c l ≤ c + (l.takeWhile p).length
    ∨ ∃ s t u, s ++ t ++ u = l ∧ (∀ x ∈ t, p x = true) ∧ runAux p c l ≤ t.length := by
  induction l with
  | nil => intro c; left; simp [runAux]
  | cons q rest ih =>
    intro c
    cases hq : p q with
    | true =>
      rcases ih (c + 1) with h | ⟨s, t, u, hsu, hall, hle⟩
      · left
        simp only [runAux, hq, if_true, List.takeWhile_cons, List.length_cons]
        omega
      · rcases Nat.le_total (c + 1) t.length with h3 | h3
        · right
          refine ⟨q :: s, t, u, ?_, hall, ?_⟩
          · simp only [List.cons_append]
            rw [hsu]
          · simp only [runAux, hq, if_true]
            omega
        · left
          simp only [runAux, hq, if_true, List.takeWhile_cons, List.length_cons]
          omega
    | false =>
      rcases ih 0 with h | ⟨s, t, u, hsu, hall, hle⟩
      · right
        refine ⟨[q], rest.takeWhile p, rest.dropWhile p, ?_, ?_, ?_⟩
        · rw [List.append_assoc, List.singleton_append, List.takeWhile_append_dropWhile]
        · exact fun x hx => List.mem_takeWhile_imp hx
        · simp only [runAux, hq, Bool.false_eq_true, if_false]
          omega
      · right
        refine ⟨q :: s, t, u, ?_, hall, ?_⟩
        · simp only [List.cons_append]
          rw [hsu]
        · simp only [runAux, hq, Bool.false_eq_true, if_false]
          omega

theorem runAux_reverse_le (p : ℚ → Bool) (l : List ℚ) :
    runAux p 0 l.reverse ≤ runAux p 0 l := by
  rcases runAux_attained p l.reverse 0 with h | ⟨s, t, u, hsu, hall, hle⟩
  · have hdec : l = (l.reverse.dropWhile p).reverse ++ (l.reverse.takeWhile p).reverse ++ [] := by
      rw [List.append_nil, ← List.reverse_append, List.takeWhile_append_dropWhile,
        List.reverse_reverse]
    have hall' : ∀ x ∈ (l.reverse.takeWhile p).reverse, p x = true := by
      intro x hx
      exact List.mem_takeWhile_imp (List.mem_reverse.mp hx)
    have hinf := runAux_infix_le p ((l.reverse.dropWhile p).reverse)
      ((l.reverse.takeWhile p).reverse) [] hall'
    rw [← hdec] at hinf
    calc runAux p 0 l.reverse ≤ 0 + (l.reverse.takeWhile p).length := h
    _ = ((l.reverse.takeWhile p).reverse).length := by rw [List.length_reverse, Nat.zero_add]
    _ ≤ runAux p 0 l := hinf
  · have hdec : u.reverse ++ t.reverse ++ s.reverse = l := by
      have h0 := congrArg List.reverse hsu
      rw [List.reverse_append, List.reverse_append, List.reverse_reverse] at h0
      rw [← List.append_assoc] at h0
      exact h0
    have hall' : ∀ x ∈ t.reverse, p x = true := fun x hx =>
      hall x (List.mem_reverse.mp hx)
    have h2 := runAux_infix_le p u.reverse t.reverse s.reverse hall'
    rw [hdec] at h2
    calc runAux p 0 l.reverse ≤ t.length := hle
    _ = t.reverse.length := (List.length_reverse t).symm
    _ ≤ runAux p 0 l := h2

theorem runAux_reverse_eq (p : ℚ → Bool) (l : List ℚ) :
    runAux p 0 l.reverse = runAux p 0 l := by
  refine le_antisymm (runAux_reverse_le p l) ?_
  have := runAux_reverse_le p l.reverse
  rwa [List.reverse_reverse] at this

theorem foldl_streakStep (l : List ℚ) :
    ∀ a : StreakAcc,
    l.foldl streakStep a
      = ⟨cntAux isWinB a.curWin l,
         max a.bestWin (runAux isWinB a.curWin l),
         cntAux isLossB a.curLoss l,
         max a.worstLoss (runAux isLossB a.curLoss l)⟩ := by
  induction l with
  | nil => intro a; simp [cntAux, runAux]
  | cons q rest ih =>
    intro a
    rw [List.foldl_cons, ih]
    rcases lt_trichotomy 0 q with hw | hz | hl
    · have h1 : isWinB q = true := by simp [isWinB, hw]
      have h2 : isLossB q = false := by
        simp only [isLossB, decide_eq_false_iff_not]
        linarith
      simp only [streakStep, if_pos hw, cntAux, runAux, List.foldl_cons, h1, h2,
        Bool.false_eq_true, if_false, if_true, StreakAcc.mk.injEq]
      and_intros <;> simp [Nat.max_assoc, Nat.zero_max, Nat.max_zero]
    · subst hz
      have h1 : isWinB 0 = false := by simp [isWinB]
      have h2 : isLossB 0 = false := by simp [isLossB]
      have hnw : ¬(0 : ℚ) < 0 := lt_irrefl 0
      simp only [streakStep, if_neg hnw, cntAux, runAux, List.foldl_cons, h1, h2,
        Bool.false_eq_true, if_false, StreakAcc.mk.injEq]
      and_intros <;> simp [Nat.max_assoc, Nat.zero_max, Nat.max_zero]
    · have h1 : isWinB q = false := by
        simp only [isWinB, decide_eq_false_iff_not]
        linarith
      have h2 : isLossB q = true := by simp [isLossB, hl]
      have hnw : ¬0 < q := by linarith
      simp only [streakStep, if_neg hnw, if_pos hl, cntAux, runAux, List.foldl_cons,
        h1, h2, Bool.false_eq_true, if_false, if_true, StreakAcc.mk.injEq]
      and_intros <;> simp [Nat.max_assoc, Nat.zero_max, Nat.max_zero]

theorem getStreaks_bestWin (l : List ℚ) :
    (getStreaks l).bestWinStreak = runAux isWinB 0 l.reverse := by
  match l with
  | [] => rfl
  | q :: rest =>
    show ((q :: rest).reverse.foldl streakStep ⟨0, 0, 0, 0⟩).bestWin = _
    rw [foldl_streakStep]
    exact Nat.zero_max _

theorem getStreaks_worstLoss (l : List ℚ) :
    (getStreaks l).worstLossStreak = runAux isLossB 0 l.reverse := by
  match l with
  | [] => rfl
  | q :: rest =>
    show ((q :: rest).reverse.foldl streakStep ⟨0, 0, 0, 0⟩).worstLoss = _
    rw [foldl_streakStep]
    exact Nat.zero_max _

theorem getStreaksRun_fst (l : List ℚ) : (getStreaksRun l).1 = getStreaks l := by
  cases l <;> rfl

theorem foldl_bumpDay (g : List Trade) :
    ∀ c : RawDay,
    g.foldl bumpDay c
      = ⟨c.totalTrades + g.length, c.totalPnL + (g.map Trade.pnl).sum,
         c.winners + g.countP fun t => decide (0 < t.pnl)⟩ := by
  induction g with
  | nil => intro c; simp
  | cons t g ih =>
    intro c
    rw [List.foldl_cons, ih]
    simp only [bumpDay, List.countP_cons, List.map_cons, List.sum_cons,
      RawDay.mk.injEq, List.length_cons, decide_eq_true_eq]
    refine ⟨by omega, by ring, by omega⟩

theorem foldl_tallyDay (l : List Trade) :
    ∀ s : RawWeek,
    l.foldl tallyDay s
      = ⟨(l.filter fun t => decide (t.entry_weekday = .monday)).foldl bumpDay s.monday,
         (l.filter fun t => decide (t.entry_weekday = .tuesday)).foldl bumpDay s.tuesday,
         (l.filter fun t => decide (t.entry_weekday = .wednesday)).foldl bumpDay s.wednesday,
         (l.filter fun t => decide (t.entry_weekday = .thursday)).foldl bumpDay s.thursday,
         (l.filter fun t => decide (t.entry_weekday = .friday)).foldl bumpDay s.friday⟩ := by
  induction l with
  | nil => intro s; rfl
  | cons t l ih =>
    intro s
    rw [List.foldl_cons, ih]
    cases ht : t.entry_weekday <;>
      simp [tallyDay, ht, List.filter_cons, RawWeek.mk.injEq]

theorem getDay_bucket (l : List Trade) :
    (getDayOfWeekAnalysis l).monday
        = dayCellSpec (l.filter fun t => decide (t.entry_weekday = .monday))
    ∧ (getDayOfWeekAnalysis l).tuesday
        = dayCellSpec (l.filter fun t => decide (t.entry_weekday = .tuesday))
    ∧ (getDayOfWeekAnalysis l).wednesday
        = dayCellSpec (l.filter fun t => decide (t.entry_weekday = .wednesday))
    ∧ (getDayOfWeekAnalysis l).thursday
        = dayCellSpec (l.filter fun t => decide (t.entry_weekday = .thursday))
    ∧ (getDayOfWeekAnalysis l).friday
        = dayCellSpec (l.filter fun t => decide (t.entry_weekday = .friday)) := by
  refine ⟨?_, ?_, ?_, ?_, ?_⟩ <;>
    simp [getDayOfWeekAnalysis, foldl_tallyDay, foldl_bumpDay, finalizeDay,
      dayCellSpec, zeroDay]

theorem band_trading (d w : Weekday) (hd : d.isTradingDay = true) :
    (decide (w = d) && w.isTradingDay) = decide (w = d) := by
  cases w <;> cases d <;> simp_all [Weekday.isTradingDay]

theorem filter_day_of_trading (l : List Trade) (d : Weekday) (hd : d.isTradingDay = true) :
    (l.filter fun t => Weekday.isTradingDay t.entry_weekday).filter
        (fun t => decide (t.entry_weekday = d))
      = l.filter fun t => decide (t.entry_weekday = d) := by
  rw [List.filter_filter]
  exact List.filter_congr fun t _ => band_trading d t.entry_weekday hd

/-! ## The claims -/

/-- Claim C1, amended.  The profit factor follows the claimed case split —
the winners' pnl sum over the absolute losers' pnl sum (reported through the
2-decimal output rounding) when gross losses are non-zero, the infinity
sentinel when there are winnings but no losses, and 0 when there are neither
— and the sentinel is distinct from every finite value.  The HTML dashboard
renders the sentinel as the symbol `∞`, but the plain-text `formatStats`
renderer interpolates the raw value, so it prints `Infinity`, not `∞`. -/
theorem C1_profit_factor (l : List Trade) :
    (0 < totalLossesOf l →
      (getStats l).profitFactor = .fin (round2 (totalWinningsOf l / totalLossesOf l)))
  ∧ (totalLossesOf l = 0 → 0 < totalWinningsOf l →
      (getStats l).profitFactor = ProfitFactor.inf)
  ∧ (winnersOf l = [] → losersOf l = [] →
      (getStats l).profitFactor = .fin 0)
  ∧ (∀ q : ℚ, ProfitFactor.inf ≠ ProfitFactor.fin q)
  ∧ (∀ s : Summary, s.profitFactor = .inf → dashboardProfitFactorString s = "∞")
  ∧ (∀ s : Summary, s.profitFactor = .inf →
      formatStatsProfitFactorLine s = "Profit Factor: Infinity") := by
  have hpf : ∀ (t0 : Trade) (rest : List Trade),
      (getStats (t0 :: rest)).profitFactor = round2PF (profitFactorOf (t0 :: rest)) :=
    fun t0 rest => rfl
  refine ⟨?_, ?_, ?_, ?_, ?_, ?_⟩
  · intro h
    match l with
    | [] => simp [totalLossesOf, losersOf, pnlSum] at h
    | t0 :: rest =>
      rw [hpf, profitFactorOf, if_pos h, round2PF]
  · intro h0 hw
    match l with
    | [] => simp [totalWinningsOf, winnersOf, pnlSum] at hw
    | t0 :: rest =>
      rw [hpf, profitFactorOf, if_neg (by rw [h0]; exact lt_irrefl 0), if_pos hw, round2PF]
  · intro hwe hle
    match l with
    | [] => rfl
    | t0 :: rest =>
      have h1 : totalLossesOf (t0 :: rest) = 0 := by
        rw [totalLossesOf, hle]; simp [pnlSum]
      have h2 : totalWinningsOf (t0 :: rest) = 0 := by
        rw [totalWinningsOf, hwe]; simp [pnlSum]
      rw [hpf, profitFactorOf, if_neg (by rw [h1]; exact lt_irrefl 0),
        if_neg (by rw [h2]; exact lt_irrefl 0), round2PF]
      norm_num [round2, jsRound_eq_floor]
  · exact fun q h => ProfitFactor.noConfusion h
  · intro s h
    rw [dashboardProfitFactorString, h]
  · intro s h
    rw [formatStatsProfitFactorLine, h, jsNumString]
    rfl

/-- Claim C1, counterexample to the claim as stated: on an all-winner trade
set the summary's profit factor is the infinity sentinel, and the plain-text
rendering of that summary prints `Profit Factor: Infinity`, not the symbol
`∞` — so not every rendering displays the sentinel as `∞`. -/
theorem C1_profit_factor_counterexample :
    (getStats exAllWin).profitFactor = ProfitFactor.inf
  ∧ formatStatsProfitFactorLine (getStats exAllWin) = "Profit Factor: Infinity"
  ∧ formatStatsProfitFactorLine (getStats exAllWin) ≠ "Profit Factor: ∞"
  ∧ dashboardProfitFactorString (getStats exAllWin) = "∞" := by
  have h : (getStats exAllWin).profitFactor = ProfitFactor.inf := by
    show round2PF (profitFactorOf exAllWin) = _
    norm_num [profitFactorOf, totalLossesOf, totalWinningsOf, winnersOf, losersOf,
      pnlSum, exAllWin, List.filter, List.foldl, round2PF]
  refine ⟨h, ?_, ?_, ?_⟩
  · rw [formatStatsProfitFactorLine, h, jsNumString]
    rfl
  · rw [formatStatsProfitFactorLine, h, jsNumString]
    decide
  · rw [dashboardProfitFactorString, h]

/-- Claim C1, witness: the amended theorem applied at concrete inputs — a
mixed trade set with losses, and an all-winner trade set. -/
theorem C1_profit_factor_witness :
    (getStats exFive).profitFactor
      = .fin (round2 (totalWinningsOf exFive / totalLossesOf exFive))
  ∧ (getStats exAllWin).profitFactor = ProfitFactor.inf :=
  ⟨(C1_profit_factor exFive).1
      (by norm_num [totalLossesOf, losersOf, pnlSum, exFive, List.filter, List.foldl]),
    (C1_profit_factor exAllWin).2.1
      (by norm_num [totalLossesOf, losersOf, pnlSum, exAllWin, List.filter, List.foldl])
      (by norm_num [totalWinningsOf, winnersOf, pnlSum, exAllWin, List.filter, List.foldl])⟩

/-- Claim C2, amended.  Every monetary output field of the summary and of
the per-setup groups is produced by applying `round2` — JavaScript
`Math.round(x*100)/100`, which rounds to 2 decimal places with ties toward
positive infinity, not away from zero — exactly once, at the output step, to
a value computed at full precision (the full-precision formulas appear on
the right-hand sides).  Tie behaviour: `10.125` rounds up to `10.13` but
`-10.125` rounds up to `-10.12`. -/
theorem C2_output_rounding (l : List Trade) (k : String) :
    (getStats l).winRate = round2 (winRateOf l)
  ∧ (getStats l).avgWinner = round2 (avgWinnerOf l)
  ∧ (getStats l).avgLoser = round2 (avgLoserOf l)
  ∧ (getStats l).profitFactor = round2PF (profitFactorOf l)
  ∧ (getStats l).totalPnL = round2 (pnlSum l)
  ∧ findSetup (getSetupAnalysis l) k
      = (if l.filter (fun t => decide (setupKey t = k)) = [] then none
         else some
           { totalTrades := (l.filter fun t => decide (setupKey t = k)).length
             winners := (l.filter fun t => decide (setupKey t = k)).countP
                 (fun t => decide (0 < t.pnl))
             losers := (l.filter fun t => decide (setupKey t = k)).countP
                 (fun t => decide (t.pnl < 0))
             totalPnL := round2 (((l.filter fun t => decide (setupKey t = k)).map Trade.pnl).sum)
             winRate := round2
                 (((l.filter fun t => decide (setupKey t = k)).countP
                     (fun t => decide (0 < t.pnl)) : ℚ)
                   / (((l.filter fun t => decide (setupKey t = k)).length : ℚ)) * 100)
             avgPnL := round2
                 (((l.filter fun t => decide (setupKey t = k)).map Trade.pnl).sum
                   / (((l.filter fun t => decide (setupKey t = k)).length : ℚ))) })
  ∧ (∀ x : ℚ, round2 x = ((⌊x * 100 + 1 / 2⌋ : ℤ) : ℚ) / 100)
  ∧ round2 (10125 / 1000) = 1013 / 100
  ∧ round2 (-(10125 / 1000)) = -(1012 / 100) := by
  have hfields :
      (getStats l).winRate = round2 (winRateOf l)
    ∧ (getStats l).avgWinner = round2 (avgWinnerOf l)
    ∧ (getStats l).avgLoser = round2 (avgLoserOf l)
    ∧ (getStats l).profitFactor = round2PF (profitFactorOf l)
    ∧ (getStats l).totalPnL = round2 (pnlSum l) := by
    match l with
    | [] =>
      refine ⟨?_, ?_, ?_, ?_, ?_⟩ <;>
        norm_num [getStats, emptySummary, winRateOf, winnersOf, losersOf, avgWinnerOf,
          avgLoserOf, profitFactorOf, totalWinningsOf, totalLossesOf, pnlSum,
          round2PF, round2, jsRound_eq_floor]
    | t0 :: rest => exact ⟨rfl, rfl, rfl, rfl, rfl⟩
  refine ⟨hfields.1, hfields.2.1, hfields.2.2.1, hfields.2.2.2.1, hfields.2.2.2.2,
    ?_, ?_, ?_, ?_⟩
  · rw [getSetupAnalysis, findSetup_map, findSetup_fold]
    by_cases hg : l.filter (fun t => decide (setupKey t = k)) = []
    · simp [hg, findSetup]
    · simp only [findSetup, true_and, hg, if_false, Option.map_some, Option.getD_none]
      rw [foldl_bumpSetup]
      simp [finalizeSetup, zeroSetup, hg]
  · intro x
    rw [round2, jsRound_eq_floor]
  · rw [round2, jsRound_eq_floor]; norm_num
  · rw [round2, jsRound_eq_floor]; norm_num

/-- Claim C2, counterexample to the claim as stated: for a single trade with
pnl −10.125 the summary's totalPnL is −10.12 (`Math.round` sends the tie
toward +∞), while round-half-away-from-zero — which the claim asserts —
would give −10.13. -/
theorem C2_output_rounding_counterexample :
    (getStats exNegTie).totalPnL = -(253 / 25)
  ∧ roundHalfAwayFromZero2 (pnlSum exNegTie) = -(1013 / 100)
  ∧ (getStats exNegTie).totalPnL ≠ roundHalfAwayFromZero2 (pnlSum exNegTie) := by
  have h1 : (getStats exNegTie).totalPnL = -(253 / 25) := by
    show round2 (pnlSum exNegTie) = _
    norm_num [pnlSum, exNegTie, List.foldl, round2, jsRound_eq_floor]
  have h2 : roundHalfAwayFromZero2 (pnlSum exNegTie) = -(1013 / 100) := by
    norm_num [pnlSum, exNegTie, List.foldl, roundHalfAwayFromZero2]
  refine ⟨h1, h2, ?_⟩
  rw [h1, h2]
  norm_num

/-- Claim C3, amended.  Closing a trade sets status `closed` and
`pnl = proceeds − cost_basis`, and the notes-update operation touches only
the free-text `notes` and `lessons` columns; but `closeTrade` never examines
the row's current status, so invoking it again on an already-closed trade
recomputes and overwrites pnl, proceeds and exit price exactly as it would
for an open trade. -/
theorem C3_close_lifecycle (t : TradeRow) (p : ℚ) (n ls : Option String) :
    (closeTrade t p n ls).status = .closed
  ∧ (closeTrade t p n ls).pnl
      = some (p * (t.size : ℚ) * multiplier t.instrument - t.cost_basis)
  ∧ (closeTrade t p n ls).proceeds = some (p * (t.size : ℚ) * multiplier t.instrument)
  ∧ (∀ n2 l2, (updateTradeNotes t n2 l2).pnl = t.pnl
      ∧ (updateTradeNotes t n2 l2).proceeds = t.proceeds
      ∧ (updateTradeNotes t n2 l2).exit_price = t.exit_price
      ∧ (updateTradeNotes t n2 l2).status = t.status)
  ∧ closeTrade { t with status := .closed } p n ls
      = closeTrade { t with status := .opened } p n ls :=
  ⟨rfl, rfl, rfl, fun n2 l2 => ⟨rfl, rfl, rfl, rfl⟩, rfl⟩

/-- Claim C3, counterexample to the claim as stated: a trade opened at 10 and
closed at 12 has pnl 1; closing the already-closed trade again at 15
overwrites its pnl with 4, so pnl is not fixed permanently after close. -/
theorem C3_close_lifecycle_counterexample :
    exOpenRow.status = .opened
  ∧ (closeTrade exOpenRow 12 none none).status = .closed
  ∧ (closeTrade exOpenRow 12 none none).pnl = some 1
  ∧ (closeTrade (closeTrade exOpenRow 12 none none) 15 none none).pnl = some 4
  ∧ (closeTrade (closeTrade exOpenRow 12 none none) 15 none none).pnl
      ≠ (closeTrade exOpenRow 12 none none).pnl := by
  refine ⟨rfl, rfl, ?_, ?_, ?_⟩ <;>
    simp [closeTrade, exOpenRow, openTrade, multiplier, COMMISSION] <;> norm_num

/-- Claim C4, amended.  `getStats`, `getSetupAnalysis` and
`getDayOfWeekAnalysis` traverse their array with non-mutating methods only,
so the array is unchanged and a repeated call returns the identical result;
`getStreaks`, however, reverses its non-empty input array in place, and a
second call on the same (now reversed) array still returns the same
bestWinStreak and worstLossStreak but may return a different currentStreak. -/
theorem C4_engine_purity (lt : List Trade) (l : List ℚ) :
    (getStatsRun lt).2 = lt
  ∧ (getStatsRun (getStatsRun lt).2).1 = (getStatsRun lt).1
  ∧ (getSetupAnalysisRun lt).2 = lt
  ∧ (getSetupAnalysisRun (getSetupAnalysisRun lt).2).1 = (getSetupAnalysisRun lt).1
  ∧ (getDayOfWeekAnalysisRun lt).2 = lt
  ∧ (getDayOfWeekAnalysisRun (getDayOfWeekAnalysisRun lt).2).1 = (getDayOfWeekAnalysisRun lt).1
  ∧ (getStreaksRun ((getStreaksRun l).2)).1.bestWinStreak = (getStreaksRun l).1.bestWinStreak
  ∧ (getStreaksRun ((getStreaksRun l).2)).1.worstLossStreak
      = (getStreaksRun l).1.worstLossStreak := by
  refine ⟨rfl, rfl, rfl, rfl, rfl, rfl, ?_, ?_⟩
  · rw [getStreaksRun_fst, getStreaksRun_fst, getStreaks_bestWin, getStreaks_bestWin]
    cases l with
    | nil => rfl
    | cons q r =>
      show runAux isWinB 0 ((q :: r).reverse.reverse) = runAux isWinB 0 (q :: r).reverse
      rw [List.reverse_reverse]
      exact (runAux_reverse_eq isWinB (q :: r)).symm
  · rw [getStreaksRun_fst, getStreaksRun_fst, getStreaks_worstLoss, getStreaks_worstLoss]
    cases l with
    | nil => rfl
    | cons q r =>
      show runAux isLossB 0 ((q :: r).reverse.reverse) = runAux isLossB 0 (q :: r).reverse
      rw [List.reverse_reverse]
      exact (runAux_reverse_eq isLossB (q :: r)).symm

/-- Claim C4, counterexample to the claim as stated: on the pnl array
[5, 3, −2, 4], `getStreaks` leaves the array reversed, and calling it again
on that same array returns currentStreak (win, 1) instead of the first
call's (win, 2) — the outputs are not bit-identical and the input order is
mutated. -/
theorem C4_engine_purity_counterexample :
    (getStreaksRun exMostRecentFirst).2 ≠ exMostRecentFirst
  ∧ (getStreaksRun exMostRecentFirst).1.currentStreak = ⟨.win, 2⟩
  ∧ (getStreaksRun ((getStreaksRun exMostRecentFirst).2)).1.currentStreak = ⟨.win, 1⟩
  ∧ (getStreaksRun ((getStreaksRun exMostRecentFirst).2)).1.currentStreak
      ≠ (getStreaksRun exMostRecentFirst).1.currentStreak := by
  have h2 : (getStreaksRun exMostRecentFirst).1.currentStreak = ⟨.win, 2⟩ := by
    rw [getStreaksRun_fst]
    norm_num [exMostRecentFirst, getStreaks, classOf, currentStreakLoop]
    decide
  have hpost : (getStreaksRun exMostRecentFirst).2 = [4, -2, 3, 5] := by
    show exMostRecentFirst.reverse = _
    norm_num [exMostRecentFirst]
  have h1 : (getStreaksRun ((getStreaksRun exMostRecentFirst).2)).1.currentStreak
      = ⟨.win, 1⟩ := by
    rw [hpost, getStreaksRun_fst]
    norm_num [getStreaks, classOf, currentStreakLoop]
    decide
  refine ⟨?_, h2, h1, ?_⟩
  · rw [hpost]
    norm_num [exMostRecentFirst]
  · rw [h1, h2]
    simp

/-- Claim C5.  On a non-empty trade list the summary partitions the trades
into winners (pnl > 0), losers (pnl < 0) and scratches (pnl = 0); winRate is
winners/total·100, avgWinner the winners' pnl sum over their count (0 when
none), avgLoser the positive magnitude of the losers' pnl sum over their
count (0 when none), and totalPnL the sum of all pnl — each reported through
the 2-decimal output rounding.  On pnl values [10, −5, 20, −5, 0] this gives
totalPnL 20, winners 2, losers 2, scratches 1, winRate 40, avgWinner 15,
avgLoser 5 and profit factor 3. -/
theorem C5_summary_formulas (t0 : Trade) (rest : List Trade) :
    (getStats (t0 :: rest)).totalTrades = (t0 :: rest).length
  ∧ (getStats (t0 :: rest)).winners = (t0 :: rest).countP (fun t => decide (0 < t.pnl))
  ∧ (getStats (t0 :: rest)).losers = (t0 :: rest).countP (fun t => decide (t.pnl < 0))
  ∧ (getStats (t0 :: rest)).scratches = (t0 :: rest).countP (fun t => decide (t.pnl = 0))
  ∧ (getStats (t0 :: rest)).winRate
      = round2 (((t0 :: rest).countP (fun t => decide (0 < t.pnl)) : ℚ)
          / ((t0 :: rest).length : ℚ) * 100)
  ∧ (getStats (t0 :: rest)).avgWinner
      = round2 (if (t0 :: rest).countP (fun t => decide (0 < t.pnl)) = 0 then 0
          else (((t0 :: rest).map Trade.pnl).filter (fun q => decide (0 < q))).sum
            / ((t0 :: rest).countP (fun t => decide (0 < t.pnl)) : ℚ))
  ∧ (getStats (t0 :: rest)).avgLoser
      = round2 (if (t0 :: rest).countP (fun t => decide (t.pnl < 0)) = 0 then 0
          else |(((t0 :: rest).map Trade.pnl).filter (fun q => decide (q < 0))).sum|
            / ((t0 :: rest).countP (fun t => decide (t.pnl < 0)) : ℚ))
  ∧ (getStats (t0 :: rest)).totalPnL = round2 (((t0 :: rest).map Trade.pnl).sum)
  ∧ (getStats exFive).totalTrades = 5
  ∧ (getStats exFive).totalPnL = 20
  ∧ (getStats exFive).winners = 2
  ∧ (getStats exFive).losers = 2
  ∧ (getStats exFive).scratches = 1
  ∧ (getStats exFive).winRate = 40
  ∧ (getStats exFive).avgWinner = 15
  ∧ (getStats exFive).avgLoser = 5
  ∧ (getStats exFive).profitFactor = .fin 3 := by
  have hw : ∀ l : List Trade, (winnersOf l).length = l.countP (fun t => decide (0 < t.pnl)) :=
    fun l => (List.countP_eq_length_filter _ _).symm
  have hl : ∀ l : List Trade, (losersOf l).length = l.countP (fun t => decide (t.pnl < 0)) :=
    fun l => (List.countP_eq_length_filter _ _).symm
  have hs : ∀ l : List Trade, (scratchesOf l).length = l.countP (fun t => decide (t.pnl = 0)) :=
    fun l => (List.countP_eq_length_filter _ _).symm
  have hws : ∀ l : List Trade,
      totalWinningsOf l = ((l.map Trade.pnl).filter (fun q => decide (0 < q))).sum := by
    intro l
    rw [totalWinningsOf, pnlSum, foldl_add_pnl, winnersOf,
      filter_pnl_comm (fun q => decide (0 < q)) l, zero_add]
  have hls : ∀ l : List Trade,
      pnlSum (losersOf l) = ((l.map Trade.pnl).filter (fun q => decide (q < 0))).sum := by
    intro l
    rw [pnlSum, foldl_add_pnl, losersOf,
      filter_pnl_comm (fun q => decide (q < 0)) l, zero_add]
  refine ⟨rfl, hw _, hl _, hs _, ?_, ?_, ?_, ?_, ?_, ?_, ?_, ?_, ?_, ?_, ?_, ?_, ?_⟩
  · show round2 (winRateOf (t0 :: rest)) = _
    rw [winRateOf, hw]
  · show round2 (avgWinnerOf (t0 :: rest)) = _
    rw [avgWinnerOf, hw, hws]
    by_cases h : (t0 :: rest).countP (fun t => decide (0 < t.pnl)) = 0
    · simp [h]
    · simp [h, Nat.pos_of_ne_zero h]
  · show round2 (avgLoserOf (t0 :: rest)) = _
    rw [avgLoserOf, hl, totalLossesOf, hls]
    by_cases h : (t0 :: rest).countP (fun t => decide (t.pnl < 0)) = 0
    · simp [h]
    · simp [h, Nat.pos_of_ne_zero h]
  · show round2 (pnlSum (t0 :: rest)) = _
    rw [pnlSum, foldl_add_pnl, zero_add]
  all_goals
    norm_num [getStats, exFive, winnersOf, losersOf, scratchesOf, winRateOf,
      avgWinnerOf, avgLoserOf, profitFactorOf, totalWinningsOf, totalLossesOf,
      pnlSum, round2PF, round2, jsRound_eq_floor, List.filter, List.foldl,
      List.countP, List.countP.go]

/-- Claim C6.  The summary computation is total, and on the empty trade
collection it returns the all-zero summary — totalTrades 0, winRate 0,
avgWinner 0, avgLoser 0, profitFactor 0, totalPnL 0, and null best and worst
trades — rather than raising an error. -/
theorem C6_empty_summary :
    getStats [] = emptySummary ∧ (getStats []).totalTrades = 0 ∧
    (getStats []).winRate = 0 ∧ (getStats []).avgWinner = 0 ∧
    (getStats []).avgLoser = 0 ∧ (getStats []).profitFactor = .fin 0 ∧
    (getStats []).totalPnL = 0 ∧ (getStats []).bestTrade = none ∧
    (getStats []).worstTrade = none :=
  ⟨rfl, rfl, rfl, rfl, rfl, rfl, rfl, rfl, rfl⟩

/-- Claim C7.  On a most-recent-first pnl sequence, currentStreak classifies
the most recent trade as win, loss or scratch and counts the consecutive run
of that same class, stopping at the first differing class (scratch being a
class of its own); zero trades give (none, 0); and on [5, 3, −2, 4] the
result is (win, 2). -/
theorem C7_current_streak (l : List ℚ) :
    (getStreaks l).currentStreak = currentStreakSpec l
  ∧ (getStreaks [5, 3, -2, 4]).currentStreak = ⟨.win, 2⟩ := by
  constructor
  · match l with
    | [] => rfl
    | q :: rest =>
      simp [getStreaks, currentStreakSpec, currentStreakLoop_eq]
  · norm_num [getStreaks, classOf, currentStreakLoop]
    decide

/-- Claim C8.  bestWinStreak and worstLossStreak equal the maxima reached by
running consecutive-win and consecutive-loss counters over the chronological
(reversed most-recent-first) sequence, where a win resets the loss counter,
a loss resets the win counter, and a scratch resets both; on the
chronological sequence [1, 1, −1, 0, 1, 1, 1] (input most-recent-first
[1, 1, 1, 0, −1, 1, 1]) they are 3 and 1. -/
theorem C8_best_worst_streaks (l : List ℚ) :
    (getStreaks l).bestWinStreak = runAux isWinB 0 l.reverse
  ∧ (getStreaks l).worstLossStreak = runAux isLossB 0 l.reverse
  ∧ (getStreaks [1, 1, 1, 0, -1, 1, 1]).bestWinStreak = 3
  ∧ (getStreaks [1, 1, 1, 0, -1, 1, 1]).worstLossStreak = 1 := by
  refine ⟨getStreaks_bestWin l, getStreaks_worstLoss l, ?_, ?_⟩
  · rw [getStreaks_bestWin]
    norm_num [runAux, isWinB, List.reverse]
  · rw [getStreaks_worstLoss]
    norm_num [runAux, isLossB, List.reverse]

/-- Claim C9.  The weekday analysis buckets trades into exactly the five
buckets Monday–Friday; each bucket's totals, winner count, win rate and
average pnl are computed only from the trades whose entry weekday fell into
that bucket, and Saturday- or Sunday-dated trades contribute to no bucket —
dropping them from the input changes nothing. -/
theorem C9_weekday_buckets (l : List Trade) :
    (getDayOfWeekAnalysis l).monday
        = dayCellSpec (l.filter fun t => decide (t.entry_weekday = .monday))
  ∧ (getDayOfWeekAnalysis l).tuesday
        = dayCellSpec (l.filter fun t => decide (t.entry_weekday = .tuesday))
  ∧ (getDayOfWeekAnalysis l).wednesday
        = dayCellSpec (l.filter fun t => decide (t.entry_weekday = .wednesday))
  ∧ (getDayOfWeekAnalysis l).thursday
        = dayCellSpec (l.filter fun t => decide (t.entry_weekday = .thursday))
  ∧ (getDayOfWeekAnalysis l).friday
        = dayCellSpec (l.filter fun t => decide (t.entry_weekday = .friday))
  ∧ getDayOfWeekAnalysis (l.filter fun t => Weekday.isTradingDay t.entry_weekday)
        = getDayOfWeekAnalysis l := by
  obtain ⟨h1, h2, h3, h4, h5⟩ := getDay_bucket l
  obtain ⟨g1, g2, g3, g4, g5⟩ :=
    getDay_bucket (l.filter fun t => Weekday.isTradingDay t.entry_weekday)
  refine ⟨h1, h2, h3, h4, h5, ?_⟩
  have hmk : ∀ w : WeekStats, w = ⟨w.monday, w.tuesday, w.wednesday, w.thursday, w.friday⟩ :=
    fun w => rfl
  rw [hmk (getDayOfWeekAnalysis (l.filter fun t => Weekday.isTradingDay t.entry_weekday)),
    hmk (getDayOfWeekAnalysis l), h1, h2, h3, h4, h5, g1, g2, g3, g4, g5,
    filter_day_of_trading l .monday rfl, filter_day_of_trading l .tuesday rfl,
    filter_day_of_trading l .wednesday rfl, filter_day_of_trading l .thursday rfl,
    filter_day_of_trading l .friday rfl]

/-- Claim C10.  A trade opened via `openTrade` stores a cost basis of
entry price × size × multiplier plus the fixed $1.00 commission, where the
multiplier is 1 for shares and 100 for every other instrument; closing
computes proceeds as exit price × size × multiplier with no further fee, so
the recorded pnl is net of exactly one $1.00 commission. -/
theorem C10_commission_cost_basis (ticker : String) (i : Instrument) (entry exit : ℚ)
    (size : ℕ) (risk : Option ℚ) (notes optN optL : Option String) :
    (openTrade ticker i entry size risk notes).cost_basis
      = entry * (size : ℚ) * multiplier i + 1
  ∧ multiplier .shares = 1 ∧ multiplier .calls = 100 ∧ multiplier .puts = 100
  ∧ multiplier .zeroDteCalls = 100 ∧ multiplier .zeroDtePuts = 100 ∧ multiplier .csp = 100
  ∧ (closeTrade (openTrade ticker i entry size risk notes) exit optN optL).proceeds
      = some (exit * (size : ℚ) * multiplier i)
  ∧ (closeTrade (openTrade ticker i entry size risk notes) exit optN optL).pnl
      = some ((exit - entry) * (size : ℚ) * multiplier i - 1) := by
  refine ⟨rfl, rfl, rfl, rfl, rfl, rfl, rfl, rfl, ?_⟩
  have h : exit * (size : ℚ) * multiplier i - (entry * (size : ℚ) * multiplier i + COMMISSION)
      = (exit - entry) * (size : ℚ) * multiplier i - 1 := by
    simp [COMMISSION]; ring
  simp [closeTrade, openTrade, h]

end Horsey
